import Mathlib

/-!
Verification of the document-retrieval subsystem of the ai-support-service
repository (src/app/rag/embedder.py, src/app/rag/retriever.py,
src/app/rag/pipeline.py), embedded shallowly in Lean 4.

Strings are modelled as lists of characters, embedding vectors as lists of
rationals (the spec compares vectors only up to floating-point equality, so
exact arithmetic is a faithful stand-in), and the filesystem artifacts of the
index store as explicit data.  External library calls that are not part of the
repository (the FAISS index search and its binary serialization, the sentence
transformer encoder) are modelled from the spec, as marked on each definition.
-/

namespace AiSupport

/-! Python string helpers used by the repository code: `str.strip` and the
newline escape in `DocumentRetriever._save_index` / `_load_index`. -/

/-- Characters stripped by Python `str.strip()`: the Unicode whitespace set
(ASCII whitespace, the separator controls U+001C to U+001F, NEL, NBSP, Ogham
space, the U+2000 to U+200A spaces, line and paragraph separators, narrow
no-break space, medium mathematical space and ideographic space). -/
def isPySpace (c : Char) : Bool :=
  c = ' ' || c = '\t' || c = '\n' || c = '\r' ||
    c = Char.ofNat 11 || c = Char.ofNat 12 ||
    c = Char.ofNat 28 || c = Char.ofNat 29 ||
    c = Char.ofNat 30 || c = Char.ofNat 31 ||
    c = Char.ofNat 133 || c = Char.ofNat 160 ||
    c = Char.ofNat 5760 ||
    (Char.ofNat 8192 ≤ c && c ≤ Char.ofNat 8202) ||
    c = Char.ofNat 8232 || c = Char.ofNat 8233 ||
    c = Char.ofNat 8239 || c = Char.ofNat 8287 ||
    c = Char.ofNat 12288

/-- Python `s.strip()`: drop leading and trailing whitespace. -/
def pyStrip (s : List Char) : List Char :=
  ((s.dropWhile isPySpace).reverse.dropWhile isPySpace).reverse

/-- One step of the newline escape of `_save_index`
(`doc.replace("\n", "\\n")`): a newline becomes backslash-n. -/
def escChar (c : Char) : List Char :=
  if c = '\n' then ['\\', 'n'] else [c]

/-- The whole-document newline escape of `_save_index`. -/
def escapeDoc : List Char → List Char
  | [] => []
  | c :: rest => escChar c ++ escapeDoc rest

/-- The reverse escape of `_load_index`
(`line.replace("\\n", "\n")`): leftmost, non-overlapping replacement of the
two-character sequence backslash-n by a newline. -/
def unescapeDoc : List Char → List Char
  | [] => []
  | [c] => [c]
  | c :: c2 :: rest =>
    if c = '\\' && c2 = 'n' then '\n' :: unescapeDoc rest
    else c :: unescapeDoc (c2 :: rest)

/-- Whether a character list contains the two-character sequence backslash-n
(the escape marker itself). -/
def hasBN : List Char → Bool
  | [] => false
  | [_] => false
  | a :: b :: rest => (a = '\\' && b = 'n') || hasBN (b :: rest)

/-- Whether a character list contains a carriage-return character, which the
text-mode read of the load path translates into a line break. -/
def hasCR : List Char → Bool
  | [] => false
  | c :: rest => c = '\r' || hasCR rest

/-- Whether the first character, if any, is safe against `line.strip()`:
not whitespace, or a newline (which the escape rewrites). -/
def headNotWS : List Char → Bool
  | [] => true
  | c :: _ => !(isPySpace c) || c = '\n'

/-- Documents whose serialized line survives `_load_index` unchanged: no
literal backslash-n sequence, no carriage return, and no leading or trailing
whitespace other than newlines. -/
def okDoc (d : List Char) : Bool :=
  !(hasBN d) && !(hasCR d) && headNotWS d && headNotWS d.reverse

/-- Content of the companion document file written by `_save_index`: each
document escaped and followed by a newline. -/
def serializeDocs : List (List Char) → List Char
  | [] => []
  | d :: rest => escapeDoc d ++ '\n' :: serializeDocs rest

/-- Helper for `readlines`: accumulates the current (reversed) line. -/
def readlinesAux : List Char → List Char → List (List Char)
  | acc, [] => if acc.isEmpty then [] else [acc.reverse]
  | acc, c :: rest =>
    if c = '\n' then (acc.reverse ++ ['\n']) :: readlinesAux [] rest
    else readlinesAux (c :: acc) rest

/-- Universal-newlines translation performed by reading a file in text mode
(`open(path, "r")` with default `newline=None`): carriage-return-line-feed
and bare carriage return both become a single newline. -/
def univNewlines : List Char → List Char
  | [] => []
  | [c] => if c = '\r' then ['\n'] else [c]
  | c :: c2 :: rest =>
    if c = '\r' then
      if c2 = '\n' then '\n' :: univNewlines rest
      else '\n' :: univNewlines (c2 :: rest)
    else c :: univNewlines (c2 :: rest)

/-- Python `f.readlines()` on a text-mode file: universal-newlines
translation, then a split into lines, each keeping its trailing newline; a
final chunk without a newline is still a line. -/
def readlines (s : List Char) : List (List Char) :=
  readlinesAux [] (univNewlines s)

/-- Document-list parsing of `_load_index`:
`[line.strip().replace("\\n", "\n") for line in f.readlines()]`. -/
def parseDocsFile (content : List Char) : List (List Char) :=
  (readlines content).map (fun line => unescapeDoc (pyStrip line))

/-! Embedding vectors and the FAISS flat inner-product index. -/

/-- An embedding vector (`np.ndarray` row), with exact entries. -/
abbrev Vec := List Rat

/-- Inner product of two vectors. -/
def dot (u v : Vec) : Rat :=
  (List.zipWith (fun a b => a * b) u v).sum

/-- A `faiss.IndexFlatIP` instance: a fixed dimension and its stored rows. -/
structure FaissIndex where
  dim : Nat
  vecs : List Vec
deriving DecidableEq

/-- Row count (`index.ntotal`). -/
def FaissIndex.ntotal (idx : FaissIndex) : Nat := idx.vecs.length

/-- Modelled from the spec: `faiss.IndexFlatIP.search` is library code not in
the repository.  Per sections 4.3 and 8 it scores the query against every row
by inner product, returns up to `min(k, row_count)` `(score, row)` pairs in
descending score order with a deterministic (stable) tie-break, an empty
sequence for an empty index, and an empty sequence for `k ≤ 0`. -/
def FaissIndex.search (idx : FaissIndex) (q : Vec) (k : Int) : List (Rat × Int) :=
  if k ≤ 0 then []
  else
    let scored := (List.range idx.vecs.length).map
      (fun i => (dot q (idx.vecs.getD i []), (i : Int)))
    let sorted := scored.insertionSort (fun x y => y.1 ≤ x.1)
    sorted.take k.toNat

/-! Embedder (src/app/rag/embedder.py).  The sentence-transformer model is an
external collaborator; its inference is an abstract function. -/

/-- An embedder: the loaded sentence-transformer model, reduced to its
inference function and output dimension. -/
structure EncodeModel where
  encode : List Char → Vec
  dim : Nat

/-- Embedder.embed_query: blank or whitespace-only input returns the empty
sentinel (`np.array([])`), otherwise the model encoding. -/
def embedQuery (m : EncodeModel) (q : List Char) : Vec :=
  if q.isEmpty || (pyStrip q).isEmpty then [] else m.encode q

/-- Embedder.embed_documents: empty input gives an empty array, otherwise one
vector per text in order. -/
def embedDocuments (m : EncodeModel) (docs : List (List Char)) : List Vec :=
  if docs.isEmpty then [] else docs.map m.encode

/-! Document loader (DocumentRetriever._load_documents). -/

/-- A `.txt` file in the data directory: reading it either fails or yields
its raw content. -/
structure TxtFile where
  content : Except Unit (List Char)

/-- A `.pdf` file: `PdfReader` plus the page loop either fails or yields the
extracted text of each page. -/
structure PdfFile where
  pages : Except Unit (List (List Char))

/-- Loading of one `.txt` file: read, strip, skip if empty or on failure. -/
def loadTxtFile (f : TxtFile) : Option (List Char) :=
  match f.content with
  | Except.error _ => none
  | Except.ok raw =>
    let content := pyStrip raw
    if content.isEmpty then none else some content

/-- The page loop of the PDF branch: non-empty page texts concatenated, each
followed by a newline. -/
def pdfConcat : List (List Char) → List Char
  | [] => []
  | p :: rest => (if p.isEmpty then [] else p ++ ['\n']) ++ pdfConcat rest

/-- Loading of one `.pdf` file: extract pages, concatenate, strip, skip if
empty or on failure. -/
def loadPdfFile (f : PdfFile) : Option (List Char) :=
  match f.pages with
  | Except.error _ => none
  | Except.ok pages =>
    let content := pyStrip (pdfConcat pages)
    if content.isEmpty then none else some content

/-- The data directory as seen by `_load_documents`: its `.txt` files and its
`.pdf` files, in glob order. -/
structure DataDir where
  txtFiles : List TxtFile
  pdfFiles : List PdfFile

/-- One iteration of a document loop: `documents.append(content)` when the
file produced a document, otherwise leave the list as is. -/
def appendOpt {β : Type} (acc : List β) (o : Option β) : List β :=
  match o with
  | some c => acc ++ [c]
  | none => acc

/-- DocumentRetriever._load_documents: a missing directory yields no
documents; otherwise the `.txt` loop runs first, then the `.pdf` loop, each
appending the successfully loaded non-empty documents in file order. -/
def loadDocuments (dir : Option DataDir) : List (List Char) :=
  match dir with
  | none => []
  | some d =>
    let txtDocs := d.txtFiles.foldl
      (fun acc f => appendOpt acc (loadTxtFile f)) []
    d.pdfFiles.foldl
      (fun acc f => appendOpt acc (loadPdfFile f)) txtDocs

/-! Index store (DocumentRetriever._save_index / _load_index). -/

/-- The two on-disk artifacts derived from the index path.  The vector blob is
an `Except`: reading it back either fails (missing or corrupt file) or yields
the index; `faiss.write_index`/`read_index` is library code not in the
repository, modelled from the spec as an exact round-trip of the row data.
The companion document file may be missing (`none`). -/
structure StoredState where
  indexBlob : Except Unit FaissIndex
  docsFile : Option (List Char)

/-- DocumentRetriever._save_index: writes the index blob and the escaped,
line-delimited document file. -/
def saveIndexFiles (idx : FaissIndex) (docs : List (List Char)) : StoredState :=
  { indexBlob := Except.ok idx, docsFile := some (serializeDocs docs) }

/-- DocumentRetriever._load_index: a failing index read propagates the error;
a missing document file leaves the document list empty; otherwise the
document file is parsed line by line. -/
def loadIndexFiles (files : StoredState) :
    Except Unit (FaissIndex × List (List Char)) :=
  match files.indexBlob with
  | Except.error e => Except.error e
  | Except.ok idx =>
    let docs :=
      match files.docsFile with
      | none => []
      | some content => parseDocsFile content
    Except.ok (idx, docs)

/-! Retriever orchestration (DocumentRetriever._create_index and retrieve). -/

/-- The in-memory state of a DocumentRetriever: its document list and its
FAISS index (None before creation). -/
structure RetrieverState where
  documents : List (List Char)
  index : Option FaissIndex

/-- DocumentRetriever._create_index (also the body of `rebuild_index`):
load documents; if none, build an empty index of the embedder dimension and
return without saving; otherwise embed, build, add, and save.  The second
component is the store write performed, `none` when no save happened. -/
def createIndex (m : EncodeModel) (dir : Option DataDir) :
    RetrieverState × Option StoredState :=
  let documents := loadDocuments dir
  if documents.isEmpty then
    ({ documents := documents, index := some { dim := m.dim, vecs := [] } },
      none)
  else
    let embeddings := embedDocuments m documents
    let dimension := match embeddings with
      | [] => 0
      | v :: _ => v.length
    let index : FaissIndex := { dim := dimension, vecs := embeddings }
    ({ documents := documents, index := some index },
      some (saveIndexFiles index documents))

/-- Python list indexing `docs[idx]` with an `Int` index: non-negative
indices are direct, negative indices count from the end, out-of-range raises
IndexError. -/
def pyGetDoc (docs : List (List Char)) (idx : Int) : Except Unit (List Char) :=
  if 0 ≤ idx then
    match docs.get? idx.toNat with
    | some d => Except.ok d
    | none => Except.error ()
  else
    let j : Int := idx + docs.length
    if 0 ≤ j then
      match docs.get? j.toNat with
      | some d => Except.ok d
      | none => Except.error ()
    else Except.error ()

/-- The result loop of `retrieve`: for each `(score, idx)` pair, append
`(documents[idx], score)` if `idx < len(documents)`, else drop the pair; an
IndexError inside the loop propagates. -/
def resolveResults (docs : List (List Char)) :
    List (Rat × Int) → Except Unit (List (List Char × Rat))
  | [] => Except.ok []
  | (score, idx) :: rest =>
    if idx < (docs.length : Int) then
      match pyGetDoc docs idx with
      | Except.error e => Except.error e
      | Except.ok d =>
        match resolveResults docs rest with
        | Except.error e => Except.error e
        | Except.ok tl => Except.ok ((d, score) :: tl)
    else resolveResults docs rest

/-- Outcome of one `retrieve` call: its result (or raised error) and whether
the FAISS search was invoked. -/
structure RetrieveOut where
  result : Except Unit (List (List Char × Rat))
  searchCalled : Bool

/-- DocumentRetriever.retrieve: empty or missing index returns no results;
a blank query (empty embedding) returns no results without searching;
otherwise `top_k` is clamped to the row count, the index is searched, and
rows are resolved to documents. -/
def retrieve (m : EncodeModel) (st : RetrieverState) (query : List Char)
    (topK : Int) : RetrieveOut :=
  match st.index with
  | none => { result := Except.ok [], searchCalled := false }
  | some idx =>
    if idx.ntotal = 0 then { result := Except.ok [], searchCalled := false }
    else
      let qe := embedQuery m query
      if qe.isEmpty then { result := Except.ok [], searchCalled := false }
      else
        let k := min topK (idx.ntotal : Int)
        let pairs := idx.search qe k
        { result := resolveResults st.documents pairs, searchCalled := true }

/-! Pipeline lazy initialization (src/app/rag/pipeline.py,
`_initialize_components`). -/

/-- The module-level globals of pipeline.py: each component is present or
still `None`. -/
structure PipelineState where
  embedder : Option Unit
  retriever : Option Unit
  client : Option Unit
deriving DecidableEq

/-- Whether each constructor call would succeed in the current environment
(embedding model fetch, retriever index load or build, GROQ_API_KEY set). -/
structure InitEnv where
  embedderOk : Bool
  retrieverOk : Bool
  apiKeyPresent : Bool

/-- The function `_initialize_components` of pipeline.py: guarded by `_embedder is None`; the
embedder global is assigned as soon as the Embedder constructs, then the
retriever, then the key check and client.  Returns the updated globals and
whether the call raised. -/
def initComponents (env : InitEnv) (s : PipelineState) :
    PipelineState × Except Unit Unit :=
  match s.embedder with
  | some _ => (s, Except.ok ())
  | none =>
    if env.embedderOk = false then (s, Except.error ())
    else
      let s1 : PipelineState := { s with embedder := some () }
      if env.retrieverOk = false then (s1, Except.error ())
      else
        let s2 : PipelineState := { s1 with retriever := some () }
        if env.apiKeyPresent = false then (s2, Except.error ())
        else ({ s2 with client := some () }, Except.ok ())

/-! Theorems.  Lemmas about the escape and the line protocol of the index
store, leading to the claims. -/

theorem escapeDoc_append (xs ys : List Char) :
    escapeDoc (xs ++ ys) = escapeDoc xs ++ escapeDoc ys := by
  induction xs with
  | nil => rfl
  | cons c t ih => simp [escapeDoc, ih]

theorem escapeDoc_eq_nil_iff (d : List Char) : escapeDoc d = [] ↔ d = [] := by
  cases d with
  | nil => simp [escapeDoc]
  | cons c t =>
    simp only [escapeDoc, escChar]
    constructor
    · intro h
      by_cases hc : c = '\n' <;> simp [hc] at h
    · intro h
      exact absurd h (by simp)

theorem nl_not_mem_escapeDoc (d : List Char) : '\n' ∉ escapeDoc d := by
  induction d with
  | nil => simp [escapeDoc]
  | cons c t ih =>
    simp only [escapeDoc, List.mem_append]
    intro h
    rcases h with h | h
    · unfold escChar at h
      by_cases hc : c = '\n' <;> simp [hc] at h
      exact hc h.symm
    · exact ih h

theorem hasBN_tail {c : Char} {rest : List Char}
    (h : hasBN (c :: rest) = false) : hasBN rest = false := by
  cases rest with
  | nil => rfl
  | cons b t =>
    simp only [hasBN, Bool.or_eq_false_iff] at h
    exact h.2

theorem unescapeDoc_bs_n (l : List Char) :
    unescapeDoc ('\\' :: 'n' :: l) = '\n' :: unescapeDoc l := rfl

theorem unescapeDoc_cons_of_ne (c e : Char) (es : List Char)
    (h : (decide (c = '\\') && decide (e = 'n')) = false) :
    unescapeDoc (c :: e :: es) = c :: unescapeDoc (e :: es) := by
  simp only [unescapeDoc, h]
  rfl

theorem unescapeDoc_escapeDoc (d : List Char) (h : hasBN d = false) :
    unescapeDoc (escapeDoc d) = d := by
  induction d with
  | nil => rfl
  | cons c rest ih =>
    have hr : hasBN rest = false := hasBN_tail h
    by_cases hc : c = '\n'
    · subst hc
      show unescapeDoc (escChar '\n' ++ escapeDoc rest) = '\n' :: rest
      have he : escChar '\n' = ['\\', 'n'] := rfl
      rw [he]
      show unescapeDoc ('\\' :: 'n' :: escapeDoc rest) = '\n' :: rest
      rw [unescapeDoc_bs_n, ih hr]
    · have hesc : escapeDoc (c :: rest) = c :: escapeDoc rest := by
        simp [escapeDoc, escChar, hc]
      rw [hesc]
      cases he : escapeDoc rest with
      | nil =>
        have hrest : rest = [] := (escapeDoc_eq_nil_iff rest).mp he
        subst hrest
        rfl
      | cons e es =>
        have hne : (decide (c = '\\') && decide (e = 'n')) = false := by
          by_cases hcb : c = '\\'
          · subst hcb
            have hrest : rest ≠ [] := by
              intro hr0
              rw [hr0] at he
              exact absurd he.symm (by simp [escapeDoc])
            obtain ⟨r, rs, hrr⟩ := List.exists_cons_of_ne_nil hrest
            subst hrr
            by_cases hrn : r = '\n'
            · subst hrn
              have : escapeDoc ('\n' :: rs) = '\\' :: 'n' :: escapeDoc rs := rfl
              rw [this] at he
              have he1 : e = '\\' := (List.cons.injEq _ _ _ _ ▸ he).1.symm
              simp [he1]
            · have : escapeDoc (r :: rs) = r :: escapeDoc rs := by
                simp [escapeDoc, escChar, hrn]
              rw [this] at he
              have he1 : e = r := (List.cons.injEq _ _ _ _ ▸ he).1.symm
              have hrn2 : r ≠ 'n' := by
                intro hr
                subst hr
                simp [hasBN] at h
              simp [he1, hrn2]
          · simp [hcb]
        rw [unescapeDoc_cons_of_ne c e es hne, ← he, ih hr]

theorem cr_not_mem_escapeDoc (d : List Char) (h : hasCR d = false) :
    '\r' ∉ escapeDoc d := by
  induction d with
  | nil => simp [escapeDoc]
  | cons c t ih =>
    simp only [hasCR, Bool.or_eq_false_iff, decide_eq_false_iff_not] at h
    simp only [escapeDoc, List.mem_append]
    intro hm
    rcases hm with hm | hm
    · unfold escChar at hm
      by_cases hc : c = '\n' <;> simp [hc] at hm
      exact h.1 hm.symm
    · exact ih h.2 hm

theorem cr_not_mem_serializeDocs (docs : List (List Char))
    (h : ∀ d ∈ docs, hasCR d = false) :
    '\r' ∉ serializeDocs docs := by
  induction docs with
  | nil => simp [serializeDocs]
  | cons d t ih =>
    show '\r' ∉ escapeDoc d ++ '\n' :: serializeDocs t
    intro hm
    rcases List.mem_append.mp hm with hm | hm
    · exact cr_not_mem_escapeDoc d (h d (List.mem_cons_self _ _)) hm
    · rcases List.mem_cons.mp hm with hm | hm
      · exact absurd hm (by decide)
      · exact ih (fun x hx => h x (List.mem_cons_of_mem _ hx)) hm

theorem univNewlines_no_cr (s : List Char) (h : '\r' ∉ s) :
    univNewlines s = s := by
  induction s with
  | nil => rfl
  | cons c rest ih =>
    have hc : c ≠ '\r' := fun he => h (he ▸ List.mem_cons_self c rest)
    have hr : '\r' ∉ rest := fun hm => h (List.mem_cons_of_mem c hm)
    cases rest with
    | nil => simp [univNewlines, hc]
    | cons c2 t =>
      rw [show univNewlines (c :: c2 :: t) = c :: univNewlines (c2 :: t) by
        simp [univNewlines, hc]]
      rw [ih hr]

theorem readlinesAux_no_nl (l : List Char) (hl : '\n' ∉ l)
    (acc rest : List Char) :
    readlinesAux acc (l ++ '\n' :: rest) =
      ((acc.reverse ++ l) ++ ['\n']) :: readlinesAux [] rest := by
  induction l generalizing acc with
  | nil => simp [readlinesAux]
  | cons c t ih =>
    have hc : c ≠ '\n' := fun h => hl (h ▸ List.mem_cons_self c t)
    have ht : '\n' ∉ t := fun h => hl (List.mem_cons_of_mem c h)
    show readlinesAux acc (c :: (t ++ '\n' :: rest)) = _
    rw [show readlinesAux acc (c :: (t ++ '\n' :: rest)) =
        readlinesAux (c :: acc) (t ++ '\n' :: rest) by simp [readlinesAux, hc]]
    rw [ih ht (c :: acc)]
    simp

theorem readlinesAux_serializeDocs (docs : List (List Char)) :
    readlinesAux [] (serializeDocs docs) =
      docs.map (fun d => escapeDoc d ++ ['\n']) := by
  induction docs with
  | nil => rfl
  | cons d t ih =>
    show readlinesAux [] (escapeDoc d ++ '\n' :: serializeDocs t) = _
    rw [readlinesAux_no_nl (escapeDoc d) (nl_not_mem_escapeDoc d) [] _]
    simp only [List.reverse_nil, List.nil_append, List.map_cons]
    exact congrArg _ ih

theorem readlines_serializeDocs (docs : List (List Char))
    (h : ∀ d ∈ docs, hasCR d = false) :
    readlines (serializeDocs docs) =
      docs.map (fun d => escapeDoc d ++ ['\n']) := by
  unfold readlines
  rw [univNewlines_no_cr _ (cr_not_mem_serializeDocs docs h)]
  exact readlinesAux_serializeDocs docs

theorem isPySpace_backslash : isPySpace '\\' = false := rfl

theorem isPySpace_n : isPySpace 'n' = false := rfl

theorem pyStrip_escape_line (d : List Char)
    (h1 : headNotWS d = true) (h2 : headNotWS d.reverse = true) :
    pyStrip (escapeDoc d ++ ['\n']) = escapeDoc d := by
  cases d with
  | nil => rfl
  | cons c t =>
    have hd : (c :: t) ≠ [] := by simp
    have hstep1 :
        List.dropWhile isPySpace (escapeDoc (c :: t) ++ ['\n']) =
          escapeDoc (c :: t) ++ ['\n'] := by
      by_cases hc : c = '\n'
      · subst hc
        show List.dropWhile isPySpace ('\\' :: ('n' :: escapeDoc t ++ ['\n'])) = _
        exact List.dropWhile_cons_of_neg (by simp [isPySpace_backslash])
      · have : escapeDoc (c :: t) = c :: escapeDoc t := by
          simp [escapeDoc, escChar, hc]
        rw [this]
        have hcw : isPySpace c = false := by
          simp only [headNotWS] at h1
          rcases Bool.or_eq_true_iff.mp h1 with h | h
          · simpa using h
          · exact absurd (of_decide_eq_true h) hc
        exact List.dropWhile_cons_of_neg (by simp [hcw])
    have hstep2 :
        List.dropWhile isPySpace (escapeDoc (c :: t)).reverse =
          (escapeDoc (c :: t)).reverse := by
      rcases List.eq_nil_or_concat (c :: t) with hnil | ⟨ds, a, hda⟩
      · exact absurd hnil hd
      · rw [hda, List.concat_eq_append, escapeDoc_append]
        by_cases ha : a = '\n'
        · subst ha
          have : escapeDoc ['\n'] = ['\\', 'n'] := rfl
          rw [this]
          simp only [List.reverse_append]
          show List.dropWhile isPySpace ('n' :: ('\\' :: (escapeDoc ds).reverse)) = _
          exact List.dropWhile_cons_of_neg (by simp [isPySpace_n])
        · have hea : escapeDoc [a] = [a] := by simp [escapeDoc, escChar, ha]
          rw [hea]
          simp only [List.reverse_append, List.reverse_cons, List.reverse_nil,
            List.nil_append]
          have haw : isPySpace a = false := by
            have hrev : (c :: t).reverse = a :: ds.reverse := by
              rw [hda, List.concat_eq_append]; simp
            rw [hrev] at h2
            simp only [headNotWS] at h2
            rcases Bool.or_eq_true_iff.mp h2 with h | h
            · simpa using h
            · exact absurd (of_decide_eq_true h) ha
          show List.dropWhile isPySpace (a :: (escapeDoc ds).reverse) = _
          exact List.dropWhile_cons_of_neg (by simp [haw])
    unfold pyStrip
    rw [hstep1]
    rw [List.reverse_append]
    show (List.dropWhile isPySpace
      ('\n' :: (escapeDoc (c :: t)).reverse)).reverse = _
    rw [List.dropWhile_cons_of_pos (by simp [isPySpace])]
    rw [hstep2, List.reverse_reverse]

theorem parseDocsFile_serializeDocs (docs : List (List Char))
    (h : ∀ d ∈ docs, okDoc d = true) :
    parseDocsFile (serializeDocs docs) = docs := by
  have hcr : ∀ d ∈ docs, hasCR d = false := by
    intro d hd
    have hok := h d hd
    simp only [okDoc, Bool.and_eq_true, Bool.not_eq_true'] at hok
    exact hok.1.1.2
  unfold parseDocsFile
  rw [readlines_serializeDocs docs hcr, List.map_map]
  have : ∀ d ∈ docs,
      unescapeDoc (pyStrip (escapeDoc d ++ ['\n'])) = id d := by
    intro d hd
    have hok := h d hd
    simp only [okDoc, Bool.and_eq_true, Bool.not_eq_true'] at hok
    rw [pyStrip_escape_line d hok.1.2 hok.2]
    exact unescapeDoc_escapeDoc d hok.1.1.1
  exact (List.map_congr_left this).trans (List.map_id docs)

/-- C1: the claim quantifies over every list of documents, including any
text whatsoever; the round trip fails on each of the following concrete
inputs.  A document of the two literal characters backslash and n comes back
as a single newline character; a document of carriage return between a and b
is split by the universal-newlines translation of text-mode reading into the
two documents a and b; a document starting with a space, or with the Unicode
no-break space U+00A0, loses that character to `line.strip()`. -/
theorem c1_roundtrip_counterexample :
    loadIndexFiles (saveIndexFiles ⟨2, [[1, 0]]⟩ [['\\', 'n']]) ≠
      Except.ok (⟨2, [[1, 0]]⟩, [['\\', 'n']]) ∧
    loadIndexFiles (saveIndexFiles ⟨2, [[1, 0]]⟩ [['a', '\r', 'b']]) ≠
      Except.ok (⟨2, [[1, 0]]⟩, [['a', '\r', 'b']]) ∧
    loadIndexFiles (saveIndexFiles ⟨2, [[1, 0]]⟩ [[' ', 'a']]) ≠
      Except.ok (⟨2, [[1, 0]]⟩, [[' ', 'a']]) ∧
    loadIndexFiles (saveIndexFiles ⟨2, [[1, 0]]⟩ [[Char.ofNat 160, 'a']]) ≠
      Except.ok (⟨2, [[1, 0]]⟩, [[Char.ofNat 160, 'a']]) := by
  refine ⟨?_, ?_, ?_, ?_⟩
  · intro heq
    rw [show loadIndexFiles (saveIndexFiles ⟨2, [[1, 0]]⟩ [['\\', 'n']]) =
        Except.ok (⟨2, [[1, 0]]⟩, [['\n']]) from rfl] at heq
    simp only [Except.ok.injEq, Prod.mk.injEq] at heq
    have := heq.2
    simp at this
  · intro heq
    rw [show loadIndexFiles (saveIndexFiles ⟨2, [[1, 0]]⟩ [['a', '\r', 'b']]) =
        Except.ok (⟨2, [[1, 0]]⟩, [['a'], ['b']]) from rfl] at heq
    simp only [Except.ok.injEq, Prod.mk.injEq] at heq
    have := heq.2
    simp at this
  · intro heq
    rw [show loadIndexFiles (saveIndexFiles ⟨2, [[1, 0]]⟩ [[' ', 'a']]) =
        Except.ok (⟨2, [[1, 0]]⟩, [['a']]) from rfl] at heq
    simp only [Except.ok.injEq, Prod.mk.injEq] at heq
    have := heq.2
    simp at this
  · intro heq
    rw [show loadIndexFiles (saveIndexFiles ⟨2, [[1, 0]]⟩ [[Char.ofNat 160, 'a']]) =
        Except.ok (⟨2, [[1, 0]]⟩, [['a']]) from rfl] at heq
    simp only [Except.ok.injEq, Prod.mk.injEq] at heq
    have := heq.2
    simp at this

/-- C1 (amended): saving an index and document list and loading them back
returns exactly the same index and the same document sequence, including
documents with embedded newlines, provided no document contains the literal
two-character sequence backslash-n, no document contains a carriage return,
and no document starts or ends with a whitespace character (Unicode
whitespace included) other than a newline. -/
theorem c1_save_load_roundtrip (idx : FaissIndex) (docs : List (List Char))
    (h : ∀ d ∈ docs, okDoc d = true) :
    loadIndexFiles (saveIndexFiles idx docs) = Except.ok (idx, docs) := by
  unfold saveIndexFiles loadIndexFiles
  simp only
  rw [parseDocsFile_serializeDocs docs h]

/-- C1 witness: a two-document list, one document containing an embedded
newline, round-trips exactly. -/
theorem c1_save_load_roundtrip_witness :
    (∀ d ∈ [['a', '\n', 'b'], ['c', ' ', 'd']], okDoc d = true) ∧
    loadIndexFiles
        (saveIndexFiles ⟨2, [[1, 0], [0, 1]]⟩ [['a', '\n', 'b'], ['c', ' ', 'd']]) =
      Except.ok (⟨2, [[1, 0], [0, 1]]⟩, [['a', '\n', 'b'], ['c', ' ', 'd']]) :=
  ⟨by decide, c1_save_load_roundtrip ⟨2, [[1, 0], [0, 1]]⟩
    [['a', '\n', 'b'], ['c', ' ', 'd']] (by decide)⟩

/-! Lemmas about `str.strip` and the document loader. -/

theorem dropWhile_dropWhile_self (p : Char → Bool) (l : List Char) :
    (l.dropWhile p).dropWhile p = l.dropWhile p := by
  induction l with
  | nil => rfl
  | cons c t ih =>
    by_cases h : p c = true
    · rw [List.dropWhile_cons_of_pos h, ih]
    · rw [List.dropWhile_cons_of_neg (by simp [h]),
        List.dropWhile_cons_of_neg (by simp [h])]

theorem head_not_of_dropWhile_eq (p : Char → Bool) (c : Char) (t : List Char)
    (h : List.dropWhile p (c :: t) = c :: t) : p c = false := by
  cases hpc : p c with
  | false => rfl
  | true =>
    rw [List.dropWhile_cons_of_pos hpc] at h
    have hle : (List.dropWhile p t).length ≤ t.length :=
      (List.dropWhile_suffix p).length_le
    rw [h] at hle
    simp at hle

theorem pyStrip_idem (s : List Char) : pyStrip (pyStrip s) = pyStrip s := by
  set p := isPySpace with hp
  set u := s.dropWhile p with hu
  set v := u.reverse.dropWhile p with hv
  have hud : u.dropWhile p = u := by rw [hu]; exact dropWhile_dropWhile_self p s
  have hvd : v.dropWhile p = v := by
    rw [hv]; exact dropWhile_dropWhile_self p u.reverse
  have hps : pyStrip s = v.reverse := rfl
  have h1 : v.reverse.dropWhile p = v.reverse := by
    cases hc : v.reverse with
    | nil => rfl
    | cons c t =>
      have hsplit : u.reverse = u.reverse.takeWhile p ++ v :=
        (List.takeWhile_append_dropWhile p u.reverse).symm
      have hu2 : u = v.reverse ++ (u.reverse.takeWhile p).reverse := by
        have := congrArg List.reverse hsplit
        simpa using this
      rw [hc] at hu2
      have hcu : u = c :: (t ++ (u.reverse.takeWhile p).reverse) := by
        simpa using hu2
      have hpc : p c = false := by
        apply head_not_of_dropWhile_eq p c (t ++ (u.reverse.takeWhile p).reverse)
        rw [← hcu]
        exact hud
      exact List.dropWhile_cons_of_neg (by simp [hpc])
  rw [hps]
  show ((v.reverse.dropWhile p).reverse.dropWhile p).reverse = v.reverse
  rw [h1, List.reverse_reverse, hvd]

theorem loadTxtFile_stripped (f : TxtFile) (d : List Char)
    (h : loadTxtFile f = some d) : pyStrip d = d ∧ d ≠ [] := by
  unfold loadTxtFile at h
  cases hc : f.content with
  | error e => rw [hc] at h; exact absurd h (by simp)
  | ok raw =>
    rw [hc] at h
    simp only at h
    by_cases he : (pyStrip raw).isEmpty = true
    · rw [if_pos he] at h
      exact absurd h (by simp)
    · rw [if_neg he] at h
      have hd : d = pyStrip raw := (Option.some.injEq _ _ ▸ h).symm
      subst hd
      exact ⟨pyStrip_idem raw, by simpa using he⟩

theorem loadPdfFile_stripped (f : PdfFile) (d : List Char)
    (h : loadPdfFile f = some d) : pyStrip d = d ∧ d ≠ [] := by
  unfold loadPdfFile at h
  cases hc : f.pages with
  | error e => rw [hc] at h; exact absurd h (by simp)
  | ok pages =>
    rw [hc] at h
    simp only at h
    by_cases he : (pyStrip (pdfConcat pages)).isEmpty = true
    · rw [if_pos he] at h
      exact absurd h (by simp)
    · rw [if_neg he] at h
      have hd : d = pyStrip (pdfConcat pages) := (Option.some.injEq _ _ ▸ h).symm
      subst hd
      exact ⟨pyStrip_idem _, by simpa using he⟩

theorem foldl_filterMap_eq {α β : Type} (f : α → Option β) (l : List α)
    (init : List β) :
    l.foldl (fun acc x => appendOpt acc (f x)) init = init ++ l.filterMap f := by
  induction l generalizing init with
  | nil => simp
  | cons a t ih =>
    rw [List.foldl_cons]
    cases hfa : f a with
    | none => rw [ih]; simp [appendOpt, List.filterMap_cons, hfa]
    | some b => rw [ih]; simp [appendOpt, List.filterMap_cons, hfa]

theorem loadDocuments_eq (txts : List TxtFile) (pdfs : List PdfFile) :
    loadDocuments (some ⟨txts, pdfs⟩) =
      txts.filterMap loadTxtFile ++ pdfs.filterMap loadPdfFile := by
  show (pdfs.foldl _ (txts.foldl _ [])) = _
  rw [foldl_filterMap_eq loadTxtFile txts [], foldl_filterMap_eq loadPdfFile pdfs]
  simp

/-- C8: in the loaded document sequence, every plain-text document precedes
every PDF document (the sequence is exactly the text-file results followed by
the PDF results), and no element is empty or whitespace-only. -/
theorem c8_txt_before_pdf_and_nonblank (txts : List TxtFile)
    (pdfs : List PdfFile) :
    loadDocuments (some ⟨txts, pdfs⟩) =
      txts.filterMap loadTxtFile ++ pdfs.filterMap loadPdfFile ∧
    ∀ d ∈ loadDocuments (some ⟨txts, pdfs⟩), pyStrip d ≠ [] := by
  refine ⟨loadDocuments_eq txts pdfs, ?_⟩
  intro d hd
  rw [loadDocuments_eq] at hd
  rcases List.mem_append.mp hd with h | h
  · obtain ⟨f, _, hfd⟩ := List.mem_filterMap.mp h
    obtain ⟨hs, hne⟩ := loadTxtFile_stripped f d hfd
    rw [hs]
    exact hne
  · obtain ⟨f, _, hfd⟩ := List.mem_filterMap.mp h
    obtain ⟨hs, hne⟩ := loadPdfFile_stripped f d hfd
    rw [hs]
    exact hne

/-- C8 witness: a directory with one text file whose content has surrounding
whitespace: the loaded document is stripped and non-blank. -/
theorem c8_witness :
    pyStrip ['h', 'i'] ≠ [] :=
  (c8_txt_before_pdf_and_nonblank [⟨Except.ok [' ', 'h', 'i']⟩] []).2
    ['h', 'i'] (by decide)

/-- C6: a missing data directory or a directory with no matching files gives
an empty sequence (no error), and a failing file, text or PDF, is skipped
without affecting the documents produced from the other files. -/
theorem c6_loader_robustness (pre post : List TxtFile)
    (pdfPre pdfPost : List PdfFile) (badTxt : TxtFile) (badPdf : PdfFile)
    (h1 : badTxt.content = Except.error ())
    (h2 : badPdf.pages = Except.error ()) :
    loadDocuments none = [] ∧
    loadDocuments (some ⟨[], []⟩) = [] ∧
    loadDocuments (some ⟨pre ++ badTxt :: post, pdfPre ++ badPdf :: pdfPost⟩) =
      loadDocuments (some ⟨pre ++ post, pdfPre ++ pdfPost⟩) := by
  refine ⟨rfl, rfl, ?_⟩
  rw [loadDocuments_eq, loadDocuments_eq]
  have hb1 : loadTxtFile badTxt = none := by
    unfold loadTxtFile
    rw [h1]
  have hb2 : loadPdfFile badPdf = none := by
    unfold loadPdfFile
    rw [h2]
  simp [List.filterMap_append, List.filterMap_cons, hb1, hb2]

/-- C6 witness: one good text file, one unreadable text file and one
unreadable PDF; the result equals that of the directory without the two bad
files. -/
theorem c6_witness :
    loadDocuments
        (some ⟨[⟨Except.ok ['a']⟩, ⟨Except.error ()⟩], [⟨Except.error ()⟩]⟩) =
      loadDocuments (some ⟨[⟨Except.ok ['a']⟩], []⟩) :=
  (c6_loader_robustness [⟨Except.ok ['a']⟩] [] [] [] ⟨Except.error ()⟩
    ⟨Except.error ()⟩ rfl rfl).2.2

/-- C7: on load, an unreadable or corrupt vector blob propagates the error
(no silent fallback to an empty index is possible: the function returns the
error), while a missing companion document file yields the index with an
empty document sequence, not an error. -/
theorem c7_load_error_behavior (docsF : Option (List Char))
    (idx : FaissIndex) :
    loadIndexFiles ⟨Except.error (), docsF⟩ = Except.error () ∧
    loadIndexFiles ⟨Except.ok idx, none⟩ = Except.ok (idx, []) :=
  ⟨rfl, rfl⟩

/-- C2: the lazy-initialization gate of pipeline.py is the check
`_embedder is None`, and `_embedder` is assigned before the retriever and
client are constructed.  When the retriever constructor raises after the
embedder is built, the first call fails but leaves the gate satisfied; a
second call (even in an environment where everything would now succeed)
performs no initialization at all and leaves the retriever and client unset,
contradicting the claim that a subsequent call retries full initialization. -/
theorem c2_init_gate_not_reset :
    (initComponents ⟨true, false, true⟩ ⟨none, none, none⟩).2 =
      Except.error () ∧
    (initComponents ⟨true, false, true⟩ ⟨none, none, none⟩).1 =
      ⟨some (), none, none⟩ ∧
    initComponents ⟨true, true, true⟩
        (initComponents ⟨true, false, true⟩ ⟨none, none, none⟩).1 =
      (⟨some (), none, none⟩, Except.ok ()) :=
  ⟨rfl, rfl, rfl⟩

/-- C3 counterexample: for an existing but empty data directory (zero
documents), `_create_index` builds an empty index and returns before the
`_save_index` call, so no persistence happens, contradicting the claim that
the persistence step still occurs. -/
theorem c3_empty_build_skips_save :
    (createIndex ⟨fun _ => [], 384⟩ (some ⟨[], []⟩)).1.index =
      some ⟨384, []⟩ ∧
    (createIndex ⟨fun _ => [], 384⟩ (some ⟨[], []⟩)).2 = none :=
  ⟨rfl, rfl⟩

/-- C3 (amended): on the build path the retriever loads documents, embeds
them, builds the index and persists it; with zero documents it still builds a
usable empty index of the embedder dimension without error, but skips the
persistence step instead of saving. -/
theorem c3_build_path (m : EncodeModel) (dir : Option DataDir) :
    (loadDocuments dir = [] →
      createIndex m dir =
        ({ documents := [], index := some ⟨m.dim, []⟩ }, none)) ∧
    (loadDocuments dir ≠ [] →
      ∃ idx : FaissIndex,
        (createIndex m dir).1.documents = loadDocuments dir ∧
        (createIndex m dir).1.index = some idx ∧
        idx.vecs.length = (loadDocuments dir).length ∧
        (createIndex m dir).2 = some (saveIndexFiles idx (loadDocuments dir))) := by
  constructor
  · intro h
    simp [createIndex, h]
  · intro h
    obtain ⟨a, t, hl⟩ := List.exists_cons_of_ne_nil h
    refine ⟨⟨(m.encode a).length, (a :: t).map m.encode⟩, ?_, ?_, ?_, ?_⟩ <;>
      simp [createIndex, hl, embedDocuments]

/-- C3 witness: a directory with one readable text file takes the non-empty
build path and performs the save. -/
theorem c3_build_path_witness :
    loadDocuments (some ⟨[⟨Except.ok ['h', 'i']⟩], []⟩) ≠ [] ∧
    ∃ idx : FaissIndex,
      (createIndex ⟨fun _ => [1], 1⟩
          (some ⟨[⟨Except.ok ['h', 'i']⟩], []⟩)).1.documents =
        loadDocuments (some ⟨[⟨Except.ok ['h', 'i']⟩], []⟩) ∧
      (createIndex ⟨fun _ => [1], 1⟩
          (some ⟨[⟨Except.ok ['h', 'i']⟩], []⟩)).1.index = some idx ∧
      idx.vecs.length =
        (loadDocuments (some ⟨[⟨Except.ok ['h', 'i']⟩], []⟩)).length ∧
      (createIndex ⟨fun _ => [1], 1⟩
          (some ⟨[⟨Except.ok ['h', 'i']⟩], []⟩)).2 =
        some (saveIndexFiles idx
          (loadDocuments (some ⟨[⟨Except.ok ['h', 'i']⟩], []⟩))) :=
  ⟨by decide, (c3_build_path ⟨fun _ => [1], 1⟩
    (some ⟨[⟨Except.ok ['h', 'i']⟩], []⟩)).2 (by decide)⟩

/-! Lemmas about search and result resolution, for C4, C5, C9 and C10. -/

theorem search_row_bounds (idx : FaissIndex) (q : Vec) (k : Int) :
    ∀ p ∈ idx.search q k, 0 ≤ p.2 ∧ p.2 < (idx.ntotal : Int) := by
  intro p hp
  unfold FaissIndex.search at hp
  by_cases hk : k ≤ 0
  · rw [if_pos hk] at hp
    exact absurd hp (by simp)
  · rw [if_neg hk] at hp
    simp only at hp
    have hp2 := List.mem_of_mem_take hp
    have hp3 := (List.mem_insertionSort _).mp hp2
    obtain ⟨i, hi, hpe⟩ := List.mem_map.mp hp3
    have hilt : i < idx.vecs.length := List.mem_range.mp hi
    rw [← hpe]
    refine ⟨by positivity, ?_⟩
    show (i : Int) < (idx.ntotal : Int)
    exact_mod_cast hilt

theorem search_length_le (idx : FaissIndex) (q : Vec) (k : Int) :
    (idx.search q k).length ≤ min k.toNat idx.ntotal := by
  unfold FaissIndex.search
  by_cases hk : k ≤ 0
  · simp [hk]
  · rw [if_neg hk]
    simp only
    rw [List.length_take, List.length_insertionSort, List.length_map,
      List.length_range]
    exact le_refl _

theorem search_nonpos_k (idx : FaissIndex) (q : Vec) (k : Int) (hk : k ≤ 0) :
    idx.search q k = [] := by
  unfold FaissIndex.search
  rw [if_pos hk]

theorem search_empty_index (idx : FaissIndex) (q : Vec) (k : Int)
    (h : idx.ntotal = 0) : idx.search q k = [] := by
  unfold FaissIndex.search
  unfold FaissIndex.ntotal at h
  by_cases hk : k ≤ 0
  · rw [if_pos hk]
  · rw [if_neg hk]
    simp [h, List.insertionSort]

theorem resolveResults_total (docs : List (List Char))
    (pairs : List (Rat × Int)) (h : ∀ p ∈ pairs, 0 ≤ p.2) :
    ∃ res, resolveResults docs pairs = Except.ok res ∧
      res.length ≤ pairs.length := by
  induction pairs with
  | nil => exact ⟨[], rfl, by simp⟩
  | cons p rest ih =>
    obtain ⟨res, hres, hlen⟩ := ih (fun x hx => h x (List.mem_cons_of_mem _ hx))
    obtain ⟨s, i⟩ := p
    have hi : (0 : Int) ≤ i := h (s, i) (List.mem_cons_self _ _)
    by_cases hlt : i < (docs.length : Int)
    · have hin : i.toNat < docs.length := (Int.toNat_lt hi).mpr hlt
      have hget : docs.get? i.toNat = some docs[i.toNat] := by
        rw [List.get?_eq_getElem?, List.getElem?_eq_getElem hin]
      refine ⟨(docs[i.toNat], s) :: res, ?_, ?_⟩
      · show resolveResults docs ((s, i) :: rest) = _
        unfold resolveResults
        rw [if_pos hlt]
        unfold pyGetDoc
        rw [if_pos hi, hget]
        simp only
        rw [hres]
      · simpa using Nat.succ_le_succ hlen
    · refine ⟨res, ?_, ?_⟩
      · show resolveResults docs ((s, i) :: rest) = _
        unfold resolveResults
        rw [if_neg hlt]
        exact hres
      · exact Nat.le_succ_of_le hlen

/-- C4: for every query and integer k, retrieve returns (without error) at
most `min(k, row_count)` results; with zero rows the result is empty for
every k, and for `k ≤ 0` the result is empty.  The FAISS search itself is
modelled from the spec (section 4.3), since the library is not part of the
repository. -/
theorem c4_retrieve_result_bounds (m : EncodeModel) (st : RetrieverState)
    (q : List Char) (k : Int) (idx : FaissIndex) (h : st.index = some idx) :
    ∃ res, (retrieve m st q k).result = Except.ok res ∧
      res.length ≤ min k.toNat idx.ntotal ∧
      (idx.ntotal = 0 → res = []) ∧
      (k ≤ 0 → res = []) := by
  unfold retrieve
  rw [h]
  dsimp only
  by_cases hn : idx.ntotal = 0
  · rw [if_pos hn]
    exact ⟨[], rfl, by simp, fun _ => rfl, fun _ => rfl⟩
  · rw [if_neg hn]
    by_cases hq : (embedQuery m q).isEmpty
    · simp only [hq, if_true]
      exact ⟨[], rfl, by simp, fun h0 => absurd h0 hn, fun _ => rfl⟩
    · simp only [hq, if_false, Bool.false_eq_true]
      have hmem := search_row_bounds idx (embedQuery m q)
        (min k (idx.ntotal : Int))
      obtain ⟨res, hres, hlen⟩ := resolveResults_total st.documents _
        (fun p hp => (hmem p hp).1)
      refine ⟨res, hres, ?_, fun h0 => absurd h0 hn, ?_⟩
      · have h1 := search_length_le idx (embedQuery m q)
          (min k (idx.ntotal : Int))
        have h2 : (min k (idx.ntotal : Int)).toNat ≤ k.toNat :=
          Int.toNat_le_toNat (min_le_left _ _)
        have := le_trans hlen h1
        have h3 : min (min k (idx.ntotal : Int)).toNat idx.ntotal ≤
            min k.toNat idx.ntotal := by
          exact min_le_min h2 (le_refl _)
        omega
      · intro hk0
        have hsearch : idx.search (embedQuery m q) (min k (idx.ntotal : Int)) = [] :=
          search_nonpos_k idx _ _ (le_trans (min_le_left _ _) hk0)
        rw [hsearch] at hres
        have : Except.ok (ε := Unit) ([] : List (List Char × Rat)) = Except.ok res := by
          rw [← hres]
          rfl
        exact (Except.ok.injEq _ _ ▸ this).symm

/-- C4 witness: a one-row index with a non-blank query and k = 3 returns at
most one result, concretely. -/
theorem c4_witness :
    (⟨[['a']], some ⟨1, [[1]]⟩⟩ : RetrieverState).index = some ⟨1, [[1]]⟩ ∧
    ∃ res, (retrieve ⟨fun _ => [1], 1⟩ ⟨[['a']], some ⟨1, [[1]]⟩⟩ ['x'] 3).result =
        Except.ok res ∧
      res.length ≤ min (3 : Int).toNat (FaissIndex.ntotal ⟨1, [[1]]⟩) ∧
      (FaissIndex.ntotal ⟨1, [[1]]⟩ = 0 → res = []) ∧
      ((3 : Int) ≤ 0 → res = []) :=
  ⟨rfl, c4_retrieve_result_bounds ⟨fun _ => [1], 1⟩ ⟨[['a']], some ⟨1, [[1]]⟩⟩
    ['x'] 3 ⟨1, [[1]]⟩ rfl⟩

/-- C5: a blank or whitespace-only query embeds to the empty sentinel, and
retrieve returns an empty result without invoking the index search. -/
theorem c5_blank_query_no_search (m : EncodeModel) (st : RetrieverState)
    (q : List Char) (k : Int) (h : pyStrip q = []) :
    embedQuery m q = [] ∧
    (retrieve m st q k).result = Except.ok [] ∧
    (retrieve m st q k).searchCalled = false := by
  have he : embedQuery m q = [] := by
    unfold embedQuery
    have : (pyStrip q).isEmpty = true := by simp [h]
    rw [this]
    simp
  refine ⟨he, ?_, ?_⟩ <;>
  · unfold retrieve
    cases hidx : st.index with
    | none => rfl
    | some idx =>
      dsimp only
      by_cases hni : idx.ntotal = 0
      · rw [if_pos hni]
      · rw [if_neg hni]
        simp [he]

/-- C5 witness: the whitespace-only query of the spec scenario. -/
theorem c5_witness :
    pyStrip [' ', ' ', ' '] = [] ∧
    (retrieve ⟨fun _ => [1], 1⟩ ⟨[['a']], some ⟨1, [[1]]⟩⟩ [' ', ' ', ' '] 3).result =
      Except.ok [] ∧
    (retrieve ⟨fun _ => [1], 1⟩ ⟨[['a']], some ⟨1, [[1]]⟩⟩ [' ', ' ', ' '] 3).searchCalled =
      false :=
  ⟨by decide,
    (c5_blank_query_no_search ⟨fun _ => [1], 1⟩ ⟨[['a']], some ⟨1, [[1]]⟩⟩
      [' ', ' ', ' '] 3 (by decide)).2.1,
    (c5_blank_query_no_search ⟨fun _ => [1], 1⟩ ⟨[['a']], some ⟨1, [[1]]⟩⟩
      [' ', ' ', ' '] 3 (by decide)).2.2⟩

/-- C9: retrieve is a pure function of the retriever state, the query and
`top_k`: two calls with equal state, equal query and equal `top_k` return
identical result sequences (same documents, same scores, same order).  This
holds because every step of the embedded code, including the spec-modelled
tie-break of the search, is deterministic. -/
theorem c9_retrieve_deterministic (m : EncodeModel) (st st2 : RetrieverState)
    (q q2 : List Char) (k k2 : Int)
    (h1 : st = st2) (h2 : q = q2) (h3 : k = k2) :
    (retrieve m st q k).result = (retrieve m st2 q2 k2).result := by
  subst h1
  subst h2
  subst h3
  rfl

/-- C9 witness: two identical calls on a concrete two-row index agree. -/
theorem c9_witness :
    (retrieve ⟨fun _ => [1, 0], 2⟩ ⟨[['a'], ['b']], some ⟨2, [[1, 0], [0, 1]]⟩⟩
        ['x'] 2).result =
      (retrieve ⟨fun _ => [1, 0], 2⟩ ⟨[['a'], ['b']], some ⟨2, [[1, 0], [0, 1]]⟩⟩
        ['x'] 2).result :=
  c9_retrieve_deterministic ⟨fun _ => [1, 0], 2⟩ _ _ _ _ _ _ rfl rfl rfl

/-- C10: the defensive check `idx < len(self.documents)` rejects only row
indices at least the document count; every negative row index passes it, and
the FAISS padding value -1 then resolves via Python negative indexing to the
last document of a non-empty list instead of being dropped. -/
theorem c10_negative_index_resolution (docs : List (List Char)) (i : Int)
    (s : Rat) (h1 : i < 0) (h2 : docs ≠ []) :
    i < (docs.length : Int) ∧
    ∃ d, docs.getLast? = some d ∧
      resolveResults docs [(s, -1)] = Except.ok [(d, s)] := by
  have hlen : 0 < docs.length := List.length_pos.mpr h2
  constructor
  · have : (0 : Int) ≤ (docs.length : Int) := Int.ofNat_nonneg _
    omega
  · have hsome : docs.getLast?.isSome = true := List.getLast?_isSome.mpr h2
    obtain ⟨d, hd⟩ := Option.isSome_iff_exists.mp hsome
    refine ⟨d, hd, ?_⟩
    have hlt : (-1 : Int) < (docs.length : Int) := by omega
    have hneg : ¬ (0 : Int) ≤ -1 := by omega
    have hj : (0 : Int) ≤ -1 + (docs.length : Int) := by omega
    have htn : ((-1 : Int) + (docs.length : Int)).toNat = docs.length - 1 := by
      omega
    have hget : docs.get? (((-1 : Int) + (docs.length : Int)).toNat) = some d := by
      rw [htn, List.get?_eq_getElem?, ← List.getLast?_eq_getElem?]
      exact hd
    show resolveResults docs [(s, -1)] = _
    unfold resolveResults
    rw [if_pos hlt]
    unfold pyGetDoc
    rw [if_neg hneg]
    simp only
    rw [if_pos hj, hget]
    rfl

/-- C10 witness: on a concrete two-document list, row index -1 passes the
check and resolves to the second (last) document. -/
theorem c10_witness :
    (-1 : Int) < (([['a'], ['b']] : List (List Char)).length : Int) ∧
    ∃ d, ([['a'], ['b']] : List (List Char)).getLast? = some d ∧
      resolveResults [['a'], ['b']] [((2 : Rat), -1)] = Except.ok [(d, 2)] :=
  c10_negative_index_resolution [['a'], ['b']] (-1) 2 (by decide) (by decide)

end AiSupport
